import Mathlib

/-!
Verification of the fastbloom repository's hash-derivation engine and
builder/sizing layer (src/hasher.rs, src/builder.rs).

Machine integers (`u64`, `u32`, `usize`) are embedded as `Nat` with explicit
reduction modulo `2^64` / `2^32` where the source uses wrapping arithmetic or
casts.  The source's `f64` arithmetic (`core::f64::consts::LN_2`,
`f64::round`, and the `crate::math` wrappers `ln`, `ceil`, `pow`) is embedded
over `ℝ`, with `Real.log`, `Int.ceil`, `round` and `Real.rpow` in the
corresponding places.
-/

/-! ## Hash derivation engine (src/hasher.rs, `DoubleHasher`) -/

/-- Embedding of `u64::rotate_left(x, 5)` for `x < 2^64`: the low 59 bits
shifted up by 5 (truncated to 64 bits) or-ed with the top 5 bits moved to
the bottom. -/
def rotate_left5 (x : Nat) : Nat :=
  x * 2 ^ 5 % 2 ^ 64 ||| x / 2 ^ 59

/-- The fixed odd 64-bit multiplier `0x517c_c1b7_2722_0a95` from
`DoubleHasher::new`. -/
def doubleHashMultiplier : Nat := 0x517cc1b727220a95

/-- State of `DoubleHasher` (src/hasher.rs): the pair of 64-bit values
`(h1, h2)`. -/
structure DoubleHasher where
  h1 : Nat
  h2 : Nat
deriving DecidableEq, Repr

/-- Embedding of `DoubleHasher::new(h1)`: stores `h1` and
`h2 = h1.wrapping_mul(0x517c_c1b7_2722_0a95)`. -/
def DoubleHasher.new (h1 : Nat) : DoubleHasher :=
  { h1 := h1, h2 := h1 * doubleHashMultiplier % 2 ^ 64 }

/-- Embedding of `DoubleHasher::next(&mut self)`: updates
`h1 := h1.rotate_left(5).wrapping_add(h2)` and returns the updated `h1`.
The mutation is embedded by returning the updated state next to the value. -/
def DoubleHasher.next (d : DoubleHasher) : DoubleHasher × Nat :=
  let h1 := (rotate_left5 d.h1 + d.h2) % 2 ^ 64
  ({ h1 := h1, h2 := d.h2 }, h1)

/-- The list of values returned by `k` successive calls to
`DoubleHasher::next`, threading the mutated state. -/
def DoubleHasher.nextN (d : DoubleHasher) : Nat → List Nat
  | 0 => []
  | k + 1 => d.next.2 :: d.next.1.nextN k

/-- The position sequence an operation (insert or contains) derives from an
item's 64-bit hash `h1`: construct `DoubleHasher::new(h1)` and call `next`
`k` times. -/
def deriveSequence (h1 k : Nat) : List Nat :=
  (DoubleHasher.new h1).nextN k

/-- The recurrence step named by the spec: `h1 := rotate_left(h1, 5) + h2`
modulo `2^64`, for a fixed `h2`. -/
def doubleHashStep (h2 x : Nat) : Nat :=
  (rotate_left5 x + h2) % 2 ^ 64

/-! ## Sizing math and builders (src/builder.rs) -/

/-- Rust `as u32` cast applied to an integral `f64` value, carried here on
its exact integer: saturates into `[0, 2^32 - 1]` (negative values to 0). -/
def int_as_u32 (i : Int) : Nat := min i.toNat (2 ^ 32 - 1)

/-- Rust `as usize` cast applied to an integral `f64` value on a 64-bit
target, carried here on its exact integer: saturates into `[0, 2^64 - 1]`. -/
def int_as_usize (i : Int) : Nat := min i.toNat (2 ^ 64 - 1)

/-- Embedding of `u32` subtraction `a - b` with two's-complement wraparound
(the release-mode semantics of the `num_hashes - 1` in `hashes`). -/
def sub_u32 (a b : Nat) : Nat := (a % 2 ^ 32 + (2 ^ 32 - b % 2 ^ 32)) % 2 ^ 32

/-- Embedding of `optimal_hashes(num_bits, num_items)` (src/builder.rs):
`LN_2 * num_bits / num_items` computed in `f64` (embedded over ℝ), rounded,
cast `as u32`, and clamped below by 1. -/
noncomputable def optimal_hashes (num_bits num_items : Nat) : Nat :=
  max (int_as_u32 (round (Real.log 2 * num_bits / num_items))) 1

/-- Embedding of `optimal_size(num_items, fp)` (src/builder.rs).  The
functions `crate::math::ln` and `crate::math::ceil` are not under src/;
modelled from the spec ("computes num_bits = 8 * ceil(num_items *
ln(target_fp) / (-8 * ln(2)^2))") as `Real.log` and the integer ceiling. -/
noncomputable def optimal_size (num_items : Nat) (fp : ℝ) : Nat :=
  max (8 * int_as_usize ⌈(num_items : ℝ) * Real.log fp / (-8 * (Real.log 2 * Real.log 2))⌉) 64

/-- Embedding of `expected_density(hashes, bits, items)` (src/builder.rs):
the probability of a "1" bit.  `crate::math::pow` is not under src/;
modelled from the spec formula `1 - (1 - 1/num_bits)^(k*num_items)` as the
real power function `Real.rpow`. -/
noncomputable def expected_density (hashes bits items : Nat) : ℝ :=
  let total_sets : ℝ := ((items * hashes : Nat) : ℝ)
  let bitsR : ℝ := (bits : ℝ)
  let prob_set := 1 / bitsR
  let prob_not_set := 1 - prob_set
  let prob_all_not_set := prob_not_set ^ total_sets
  1 - prob_all_not_set

/-- Embedding of `expected_false_pos(hashes, density)` (src/builder.rs):
`pow(density, hashes as f64)`, with `crate::math::pow` (not under src/)
modelled from the spec formula `density^k` as `Real.rpow`. -/
noncomputable def expected_false_pos (hashes : Nat) (density : ℝ) : ℝ :=
  density ^ ((hashes : Nat) : ℝ)

/-- A Bloom filter as finalized by the builders: the backing words, the
stored `num_hashes_minus_one : u32`, and the hasher (the `$bloom` struct
fields named in src/builder.rs). -/
structure BloomFilter (S : Type) where
  bits : List Nat
  num_hashes_minus_one : Nat
  hasher : S

/-- Embedding of `BuilderWithBits` (src/builder.rs): the backing words plus
a hasher of some type `S`. -/
structure BuilderWithBits (S : Type) where
  data : List Nat
  hasher : S

/-- Embedding of `BuilderWithFalsePositiveRate` (src/builder.rs): the
desired false-positive rate (an `f64`, embedded as ℝ) plus a hasher. -/
structure BuilderWithFalsePositiveRate (S : Type) where
  desired_fp_rate : ℝ
  hasher : S

/-- Embedding of `PartialEq::eq` for `BuilderWithBits` (src/builder.rs
lines 24-28): compares only the `data` field. -/
def BuilderWithBits.eq {S : Type} (a b : BuilderWithBits S) : Bool :=
  a.data == b.data

/-- Embedding of `PartialEq::eq` for `BuilderWithFalsePositiveRate`
(src/builder.rs lines 151-155): compares only `desired_fp_rate` (`f64`
equality on the embedded reals). -/
def BuilderWithFalsePositiveRate.eq {S : Type} (a b : BuilderWithFalsePositiveRate S) : Prop :=
  a.desired_fp_rate = b.desired_fp_rate

/-- Embedding of the builder finalizer `hashes(num_hashes)` (src/builder.rs
lines 76-82): constructs the filter with
`num_hashes_minus_one = num_hashes - 1`, a `u32` subtraction. -/
def BuilderWithBits.hashes {S : Type} (b : BuilderWithBits S) (num_hashes : Nat) : BloomFilter S :=
  { bits := b.data, num_hashes_minus_one := sub_u32 num_hashes 1, hasher := b.hasher }

/-- Embedding of `BuilderWithBits::expected_items` (src/builder.rs lines
98-102): clamps the item count to at least 1, derives the hash count from
`data.len() * 64` bits, and finalizes via `hashes`. -/
noncomputable def BuilderWithBits.expected_items {S : Type} (b : BuilderWithBits S)
    (expected_items : Nat) : BloomFilter S :=
  b.hashes (optimal_hashes (b.data.length * 64) (max 1 expected_items))

/-- Embedding of the builder method `hasher` (renamed: it clashes with the
field accessor): replaces the hasher, keeping `data`. -/
def BuilderWithBits.withHasher {S T : Type} (b : BuilderWithBits S) (h : T) : BuilderWithBits T :=
  { data := b.data, hasher := h }

/-- Modelled from the spec: `BloomFilter::new_builder(num_bits)` is not
under src/ (only its caller in src/builder.rs is).  Per spec section 3
(capacity is `64 * word_count`) and section 4.4 (explicit bit budget entry
style) it allocates enough zeroed 64-bit words to cover `num_bits`. -/
def new_builder (num_bits : Nat) : BuilderWithBits Unit :=
  { data := List.replicate ((num_bits + 63) / 64) 0, hasher := () }

/-- Embedding of `BuilderWithFalsePositiveRate::expected_items`
(src/builder.rs lines 208-214): clamps the item count, derives the bit size
from the desired rate, and delegates to the bit-budget builder. -/
noncomputable def BuilderWithFalsePositiveRate.expected_items {S : Type}
    (b : BuilderWithFalsePositiveRate S) (expected_items : Nat) : BloomFilter S :=
  let e := max 1 expected_items
  ((new_builder (optimal_size e b.desired_fp_rate)).withHasher b.hasher).expected_items e

/-! ## Theorems -/

theorem nextN_eq_iterate (d : DoubleHasher) (k : Nat) :
    d.nextN k = (List.range k).map fun i => (doubleHashStep d.h2)^[i + 1] d.h1 := by
  induction k generalizing d with
  | zero => rfl
  | succ k ih =>
    have hrec : d.nextN (k + 1) = d.next.2 :: d.next.1.nextN k := rfl
    rw [hrec, ih]
    have hnext2 : d.next.2 = doubleHashStep d.h2 d.h1 := rfl
    have hnext1 : d.next.1 = ⟨doubleHashStep d.h2 d.h1, d.h2⟩ := rfl
    rw [hnext2, hnext1, List.range_succ_eq_map, List.map_cons, List.map_map]
    refine congrArg₂ _ rfl ?_
    refine List.map_congr_left fun i _ => ?_
    show (doubleHashStep d.h2)^[i + 1] (doubleHashStep d.h2 d.h1)
        = (doubleHashStep d.h2)^[i + 1 + 1] d.h1
    rw [Function.iterate_succ_apply (doubleHashStep d.h2) (i + 1) d.h1]

theorem nextN_take (d : DoubleHasher) (k m : Nat) :
    (d.nextN (k + m)).take k = d.nextN k := by
  induction k generalizing d with
  | zero => simp [DoubleHasher.nextN]
  | succ k ih =>
    have hidx : k + 1 + m = k + m + 1 := by omega
    rw [hidx]
    show d.next.2 :: (d.next.1.nextN (k + m)).take k = d.next.2 :: d.next.1.nextN k
    rw [ih]

/-- C1: for every 64-bit input hash `h1`, `DoubleHasher::new` computes
`h2 = h1 * 0x517c_c1b7_2722_0a95 mod 2^64`, and the `i`-th value produced by
`DoubleHasher::next` is exactly the `i`-fold application (counted from 1) of
the recurrence `h1 := rotate_left(h1, 5) + h2 mod 2^64` to the original
`h1`; so the k-th derived value is determined exactly by this recurrence. -/
theorem double_hasher_recurrence (h1 k : Nat) (_hlt : h1 < 2 ^ 64) :
    (DoubleHasher.new h1).h2 = h1 * 0x517cc1b727220a95 % 2 ^ 64 ∧
    deriveSequence h1 k =
      (List.range k).map fun i =>
        (fun x => (rotate_left5 x + h1 * 0x517cc1b727220a95 % 2 ^ 64) % 2 ^ 64)^[i + 1] h1 := by
  refine ⟨rfl, ?_⟩
  have h := nextN_eq_iterate (DoubleHasher.new h1) k
  exact h

/-- Witness for C1 at `h1 = 3`, `k = 2`. -/
theorem double_hasher_recurrence_witness :
    3 < 2 ^ 64 ∧
    ((DoubleHasher.new 3).h2 = 3 * 0x517cc1b727220a95 % 2 ^ 64 ∧
     deriveSequence 3 2 =
       (List.range 2).map fun i =>
         (fun x => (rotate_left5 x + 3 * 0x517cc1b727220a95 % 2 ^ 64) % 2 ^ 64)^[i + 1] 3) :=
  ⟨by norm_num, double_hasher_recurrence 3 2 (by norm_num)⟩

/-- C5: the position-sequence derivation is a pure function of `(h1, k)`:
running it twice on equal inputs yields identical sequences, and the first
`k` values derived are independent of how many further values are requested,
so insert and contains regenerate the same position sequence for the same
item. -/
theorem double_hash_deterministic (h1 h1' k m : Nat) (h : h1 = h1') :
    deriveSequence h1 k = deriveSequence h1' k ∧
    (deriveSequence h1 (k + m)).take k = deriveSequence h1 k := by
  subst h
  exact ⟨rfl, nextN_take (DoubleHasher.new h1) k m⟩

/-- Witness for C5 at `h1 = h1' = 7`, `k = 3`, `m = 2`. -/
theorem double_hash_deterministic_witness :
    (7 : Nat) = 7 ∧
    (deriveSequence 7 3 = deriveSequence 7 3 ∧
     (deriveSequence 7 (3 + 2)).take 3 = deriveSequence 7 3) :=
  ⟨rfl, double_hash_deterministic 7 7 3 2 rfl⟩

theorem expected_density_pow (hashes bits items : Nat) :
    expected_density hashes bits items = 1 - (1 - 1 / (bits : ℝ)) ^ (items * hashes) := by
  simp only [expected_density]
  rw [Real.rpow_natCast]

theorem expected_false_pos_pow (hashes : Nat) (density : ℝ) :
    expected_false_pos hashes density = density ^ hashes := by
  simp only [expected_false_pos]
  rw [Real.rpow_natCast]

/-- C7: for every hash count `k`, bit count and item count,
`expected_density(k, num_bits, num_items)` returns
`1 - (1 - 1/num_bits)^(k*num_items)` (the `f64` arithmetic embedded over
ℝ, with `crate::math::pow` modelled from the spec as the real power). -/
theorem expected_density_formula (hashes bits items : Nat) :
    expected_density hashes bits items = 1 - (1 - 1 / (bits : ℝ)) ^ (hashes * items) := by
  rw [expected_density_pow hashes bits items, Nat.mul_comm items hashes]

/-- C8: for every hash count `k` and density `d`, `expected_false_pos(k, d)`
returns `d^k` (the `f64` power embedded as the real power, which for the
natural exponent `k` agrees with iterated multiplication). -/
theorem expected_false_pos_formula (hashes : Nat) (density : ℝ) :
    expected_false_pos hashes density = density ^ hashes :=
  expected_false_pos_pow hashes density

/-- C2: for every `num_bits` and every `num_items >= 1`, `optimal_hashes`
returns `round(ln(2) * num_bits / num_items)` converted to `u32` (a
saturating cast) and clamped to a minimum of 1; the result is always at
least 1, and whenever the rounded value fits in `u32` the saturation is
immaterial. -/
theorem optimal_hashes_formula (num_bits num_items : Nat) (_h : 1 ≤ num_items) :
    optimal_hashes num_bits num_items
      = max (min (round (Real.log 2 * num_bits / num_items)).toNat (2 ^ 32 - 1)) 1
    ∧ 1 ≤ optimal_hashes num_bits num_items
    ∧ (round (Real.log 2 * num_bits / num_items) ≤ 2 ^ 32 - 1 →
        optimal_hashes num_bits num_items
          = max (round (Real.log 2 * num_bits / num_items)).toNat 1) := by
  refine ⟨rfl, le_max_right _ _, fun hle => ?_⟩
  unfold optimal_hashes int_as_u32
  have hfit : (round (Real.log 2 * num_bits / num_items)).toNat ≤ 2 ^ 32 - 1 := by
    omega
  rw [min_eq_left hfit]

/-- Witness for C2 at `num_bits = 64`, `num_items = 1`. -/
theorem optimal_hashes_formula_witness :
    1 ≤ 1 ∧
    (optimal_hashes 64 1
        = max (min (round (Real.log 2 * (64 : Nat) / (1 : Nat))).toNat (2 ^ 32 - 1)) 1
     ∧ 1 ≤ optimal_hashes 64 1
     ∧ (round (Real.log 2 * (64 : Nat) / (1 : Nat)) ≤ 2 ^ 32 - 1 →
         optimal_hashes 64 1 = max (round (Real.log 2 * (64 : Nat) / (1 : Nat))).toNat 1)) :=
  ⟨le_refl 1, optimal_hashes_formula 64 1 (le_refl 1)⟩

/-- C3: for every `num_items >= 1` and rate `fp`, `optimal_size` returns
`max(8 * ceil(num_items * ln(fp) / (-8 * ln(2)^2)), 64)` (the ceiling cast
`as usize`), and in particular the result is always at least 64 and a
multiple of 8. -/
theorem optimal_size_formula (num_items : Nat) (fp : ℝ) (_h : 1 ≤ num_items) :
    optimal_size num_items fp
      = max (8 * int_as_usize
          ⌈(num_items : ℝ) * Real.log fp / (-8 * (Real.log 2 * Real.log 2))⌉) 64
    ∧ 64 ≤ optimal_size num_items fp
    ∧ 8 ∣ optimal_size num_items fp := by
  refine ⟨rfl, le_max_right _ _, ?_⟩
  unfold optimal_size
  rcases Nat.le_total
      (8 * int_as_usize ⌈(num_items : ℝ) * Real.log fp / (-8 * (Real.log 2 * Real.log 2))⌉) 64
    with hc | hc
  · rw [Nat.max_eq_right hc]
    norm_num
  · rw [Nat.max_eq_left hc]
    exact dvd_mul_right 8 _

/-- Witness for C3 at `num_items = 10000`, `fp = 1/10^4`. -/
theorem optimal_size_formula_witness :
    1 ≤ 10000 ∧
    (optimal_size 10000 (1 / 10 ^ 4)
        = max (8 * int_as_usize
            ⌈((10000 : Nat) : ℝ) * Real.log (1 / 10 ^ 4) / (-8 * (Real.log 2 * Real.log 2))⌉) 64
     ∧ 64 ≤ optimal_size 10000 (1 / 10 ^ 4)
     ∧ 8 ∣ optimal_size 10000 (1 / 10 ^ 4)) :=
  ⟨by norm_num, optimal_size_formula 10000 (1 / 10 ^ 4) (by norm_num)⟩

/-- C6: for both builder styles, `expected_items 0` yields exactly the same
filter as `expected_items 1`: the supplied item count is clamped to a
minimum of 1 before any sizing math runs. -/
theorem expected_items_zero_normalized (S : Type) (b : BuilderWithBits S)
    (c : BuilderWithFalsePositiveRate S) :
    b.expected_items 0 = b.expected_items 1 ∧ c.expected_items 0 = c.expected_items 1 :=
  ⟨rfl, rfl⟩

/-- C9: the finalizer `hashes(num_hashes)` stores `num_hashes - 1` in the
filter's `u32` field: for `1 <= num_hashes < 2^32` the subtraction does not
underflow and the stored value is exactly `num_hashes - 1`, while at
`num_hashes = 0` the subtraction underflows (wrapping to `2^32 - 1`), so
the interface itself does not enforce the invariant `k >= 1`. -/
theorem hashes_stores_minus_one (S : Type) (b : BuilderWithBits S) (n : Nat)
    (h1 : 1 ≤ n) (h2 : n < 2 ^ 32) :
    (b.hashes n).num_hashes_minus_one = n - 1 ∧
    (b.hashes 0).num_hashes_minus_one = 2 ^ 32 - 1 := by
  simp only [BuilderWithBits.hashes, sub_u32]
  constructor
  · omega
  · omega

/-- Witness for C9 at `num_hashes = 4` on an empty builder. -/
theorem hashes_stores_minus_one_witness :
    1 ≤ 4 ∧ 4 < 2 ^ 32 ∧
    (((⟨[], ()⟩ : BuilderWithBits Unit).hashes 4).num_hashes_minus_one = 4 - 1 ∧
     ((⟨[], ()⟩ : BuilderWithBits Unit).hashes 0).num_hashes_minus_one = 2 ^ 32 - 1) :=
  ⟨by norm_num, by norm_num,
    hashes_stores_minus_one Unit ⟨[], ()⟩ 4 (by norm_num) (by norm_num)⟩

/-- C10: builder equality ignores the hasher and seed: bit-budget builders
compare equal exactly when their backing word vectors are equal, and
false-positive-rate builders exactly when their desired rates are equal; in
particular two builders sharing that remaining field but holding different
hashers compare equal. -/
theorem builder_eq_ignores_hasher (S : Type) (a b : BuilderWithBits S)
    (c d : BuilderWithFalsePositiveRate S) (h h' : S) (w : List Nat) (r : ℝ) :
    (BuilderWithBits.eq a b = true ↔ a.data = b.data)
    ∧ (BuilderWithFalsePositiveRate.eq c d ↔ c.desired_fp_rate = d.desired_fp_rate)
    ∧ BuilderWithBits.eq ⟨w, h⟩ ⟨w, h'⟩ = true
    ∧ BuilderWithFalsePositiveRate.eq ⟨r, h⟩ ⟨r, h'⟩ := by
  refine ⟨?_, Iff.rfl, ?_, rfl⟩
  · simp [BuilderWithBits.eq]
  · simp [BuilderWithBits.eq]

theorem log_ten_bounds : (2.302 : ℝ) < Real.log 10 ∧ Real.log 10 < 2.303 := by
  have h2l : (0.6931471803 : ℝ) < Real.log 2 := Real.log_two_gt_d9
  have h2u : Real.log 2 < 0.6931471808 := Real.log_two_lt_d9
  have hub : Real.log (128 / 125) ≤ 128 / 125 - 1 :=
    Real.log_le_sub_one_of_pos (by norm_num)
  have hlb : (3 : ℝ) / 128 ≤ Real.log (128 / 125) := by
    have h' := Real.log_le_sub_one_of_pos (show (0 : ℝ) < 125 / 128 by norm_num)
    rw [show (125 : ℝ) / 128 = (128 / 125)⁻¹ by norm_num, Real.log_inv] at h'
    linarith
  have h5 : 3 * Real.log 5 + Real.log (128 / 125) = 7 * Real.log 2 := by
    have h125 : Real.log 125 = 3 * Real.log 5 := by
      rw [show (125 : ℝ) = 5 ^ 3 by norm_num, Real.log_pow]
      push_cast
      ring
    have h128 : Real.log 128 = 7 * Real.log 2 := by
      rw [show (128 : ℝ) = 2 ^ 7 by norm_num, Real.log_pow]
      push_cast
      ring
    have hmul : Real.log 128 = Real.log 125 + Real.log (128 / 125) := by
      rw [← Real.log_mul (by norm_num) (by norm_num)]
      norm_num
    linarith
  have h10 : Real.log 10 = Real.log 2 + Real.log 5 := by
    rw [show (10 : ℝ) = 2 * 5 by norm_num, Real.log_mul (by norm_num) (by norm_num)]
  constructor
  · linarith
  · linarith

theorem optimal_size_two_em16 : optimal_size 2 (1 / 10 ^ 16) = 160 := by
  have hlog : Real.log ((1 : ℝ) / 10 ^ 16) = -(16 * Real.log 10) := by
    rw [one_div, Real.log_inv, Real.log_pow]
    push_cast
    ring
  have h2l : (0.693 : ℝ) < Real.log 2 := lt_trans (by norm_num) Real.log_two_gt_d9
  have h2u : Real.log 2 < 0.69315 := lt_trans Real.log_two_lt_d9 (by norm_num)
  obtain ⟨h10l, h10u⟩ := log_ten_bounds
  have hb2pos : (0 : ℝ) < Real.log 2 * Real.log 2 := by nlinarith
  have hsq_u : Real.log 2 * Real.log 2 < 0.4805 := by nlinarith
  have hsq_l : (0.48 : ℝ) < Real.log 2 * Real.log 2 := by nlinarith
  have hq : ((2 : Nat) : ℝ) * Real.log ((1 : ℝ) / 10 ^ 16) / (-8 * (Real.log 2 * Real.log 2))
      = 4 * Real.log 10 / (Real.log 2 * Real.log 2) := by
    rw [hlog]
    push_cast
    rw [div_eq_div_iff
      (ne_of_lt (show (-8 : ℝ) * (Real.log 2 * Real.log 2) < 0 by nlinarith))
      (ne_of_gt hb2pos)]
    ring
  have hceil : ⌈((2 : Nat) : ℝ) * Real.log ((1 : ℝ) / 10 ^ 16)
      / (-8 * (Real.log 2 * Real.log 2))⌉ = 20 := by
    rw [hq, Int.ceil_eq_iff]
    constructor
    · rw [lt_div_iff hb2pos]
      push_cast
      linarith
    · rw [div_le_iff hb2pos]
      push_cast
      linarith
  unfold optimal_size
  rw [hceil]
  decide

theorem optimal_hashes_160_two : optimal_hashes 160 2 = 55 := by
  have h2l : (0.693 : ℝ) < Real.log 2 := lt_trans (by norm_num) Real.log_two_gt_d9
  have h2u : Real.log 2 < 0.69315 := lt_trans Real.log_two_lt_d9 (by norm_num)
  have hround : round (Real.log 2 * ((160 : Nat) : ℝ) / ((2 : Nat) : ℝ)) = 55 := by
    rw [round_eq, Int.floor_eq_iff]
    push_cast
    constructor
    · linarith
    · linarith
  unfold optimal_hashes
  rw [hround]
  decide

theorem density_bounds_55_160_2 :
    expected_density 55 160 2 ≤ 251 / 500 ∧ 0 ≤ expected_density 55 160 2 := by
  rw [expected_density_pow]
  have hbase : (1 : ℝ) - 1 / ((160 : Nat) : ℝ) = 159 / 160 := by norm_num
  rw [hbase]
  constructor
  · have h1 : (249 / 500 : ℝ) ≤ (159 / 160) ^ (2 * 55) := by
      rw [div_pow, div_le_div_iff (by norm_num) (by positivity)]
      norm_num
    linarith
  · have h2 : ((159 : ℝ) / 160) ^ (2 * 55) ≤ 1 :=
      pow_le_one₀ (by norm_num) (by norm_num)
    linarith

theorem fp_bound_55_160_2 :
    expected_false_pos 55 (expected_density 55 160 2) < 9 / 10 ^ 17 := by
  obtain ⟨hle, hnn⟩ := density_bounds_55_160_2
  rw [expected_false_pos_pow]
  calc expected_density 55 160 2 ^ 55
      ≤ (251 / 500 : ℝ) ^ 55 := pow_le_pow_left hnn hle 55
    _ < 9 / 10 ^ 17 := by
        rw [div_pow, div_lt_div_iff (by positivity) (by positivity)]
        norm_num

/-- C4 as stated is false: at item count 2 and target rate 1e-16 (inside the
ranges the claim quantifies over) the computed size is 160 bits, below 256,
yet the false-positive rate obtained by composing optimal_size,
optimal_hashes, expected_density and expected_false_pos undershoots the
target by more than 10% relative error (the relative error is about -77%). -/
theorem sizing_agreement_counterexample :
    optimal_size 2 (1 / 10 ^ 16) < 256 ∧
    1 / 10 <
      |(expected_false_pos (optimal_hashes (optimal_size 2 (1 / 10 ^ 16)) 2)
          (expected_density (optimal_hashes (optimal_size 2 (1 / 10 ^ 16)) 2)
            (optimal_size 2 (1 / 10 ^ 16)) 2)
        - 1 / 10 ^ 16) / ((1 : ℝ) / 10 ^ 16)| := by
  rw [optimal_size_two_em16, optimal_hashes_160_two]
  refine ⟨by norm_num, ?_⟩
  have hlt := fp_bound_55_160_2
  obtain ⟨-, hnn⟩ := density_bounds_55_160_2
  have hfp_nn : 0 ≤ expected_false_pos 55 (expected_density 55 160 2) := by
    rw [expected_false_pos_pow]
    exact pow_nonneg hnn 55
  have ht : (0 : ℝ) < 1 / 10 ^ 16 := by norm_num
  have h9 : (9 : ℝ) / 10 ^ 17 = 9 / 10 * (1 / 10 ^ 16) := by norm_num
  have herr : (expected_false_pos 55 (expected_density 55 160 2) - 1 / 10 ^ 16)
      / ((1 : ℝ) / 10 ^ 16) < -(1 / 10) := by
    rw [div_lt_iff ht]
    linarith
  have hneg : (expected_false_pos 55 (expected_density 55 160 2) - 1 / 10 ^ 16)
      / ((1 : ℝ) / 10 ^ 16) < 0 := lt_trans herr (by norm_num)
  rw [abs_of_neg hneg]
  linarith

/-- C4 amended: the sizing functions agree only one-sidedly, as the
repository's own test asserts — at item count 2 and target rate 1e-16 the
composed rate stays below target * (1 + 0.1) (the signed relative error is
under the 10% threshold), but it undershoots the target by more than 10%,
so the two-sided "within 10%" reading fails for small arrays. -/
theorem sizing_agreement_one_sided :
    (expected_false_pos (optimal_hashes (optimal_size 2 (1 / 10 ^ 16)) 2)
        (expected_density (optimal_hashes (optimal_size 2 (1 / 10 ^ 16)) 2)
          (optimal_size 2 (1 / 10 ^ 16)) 2)
      - 1 / 10 ^ 16) / ((1 : ℝ) / 10 ^ 16) < 1 / 10 ∧
    expected_false_pos (optimal_hashes (optimal_size 2 (1 / 10 ^ 16)) 2)
        (expected_density (optimal_hashes (optimal_size 2 (1 / 10 ^ 16)) 2)
          (optimal_size 2 (1 / 10 ^ 16)) 2)
      < 9 / 10 * ((1 : ℝ) / 10 ^ 16) := by
  rw [optimal_size_two_em16, optimal_hashes_160_two]
  have hlt := fp_bound_55_160_2
  have ht : (0 : ℝ) < 1 / 10 ^ 16 := by norm_num
  have h9 : (9 : ℝ) / 10 ^ 17 = 9 / 10 * (1 / 10 ^ 16) := by norm_num
  constructor
  · rw [div_lt_iff ht]
    linarith
  · linarith
